import Mathlib

/-!
# Verification of SEED-platform/building-data-utilities

A shallow embedding in Lean 4 of the building-data utility scripts
(address normalization, geocoding client, quadkey downloader, UBID
encoder/decoder, GeoJSON helpers, shapefile conversion driver) together
with proofs of the behavioural claims about them.

Several implementation modules (`ubid.py`, `normalize_address.py`,
`geocode_addresses.py`, `update_quadkeys.py`, `geojson_helpers.py`)
are not present in the source tree — only their tests, callers and the
specification describe them.  Those are modelled from the spec, as noted
in the doc comment of each such definition.  `main.py` and
`cbl_workflow/utils/shp_to_geojson.py` are present and embedded
directly.
-/

namespace BDU

/-! ## Decimal digit serialization

Infrastructure for the string form of UBIDs and of numbers appearing in
error messages.  Numbers are serialized little-endian as decimal digit
characters; a fuel-based recursion keeps everything kernel-computable. -/

/-- Little-endian decimal digits of `n`, with explicit fuel (adequate when
`fuel ≥ n`). -/
def digitsRec : Nat → Nat → List Nat
  | _, 0 => []
  | 0, _ + 1 => []
  | fuel + 1, n + 1 => (n + 1) % 10 :: digitsRec fuel ((n + 1) / 10)

/-- Little-endian decimal digits of `n`. -/
def natDigits (n : Nat) : List Nat := digitsRec n n

/-- Value of a little-endian list of base-10 digits. -/
def ofDigits10 : List Nat → Nat
  | [] => 0
  | d :: ds => d + 10 * ofDigits10 ds

theorem ofDigits10_digitsRec (fuel n : Nat) (h : n ≤ fuel) :
    ofDigits10 (digitsRec fuel n) = n := by
  induction fuel generalizing n with
  | zero =>
    interval_cases n
    rfl
  | succ f ih =>
    cases n with
    | zero => rfl
    | succ m =>
      have hlt : (m + 1) / 10 < m + 1 := Nat.div_lt_self (Nat.succ_pos m) (by norm_num)
      have hle : (m + 1) / 10 ≤ f := by omega
      simp only [digitsRec, ofDigits10, ih _ hle]
      omega

theorem ofDigits10_natDigits (n : Nat) : ofDigits10 (natDigits n) = n :=
  ofDigits10_digitsRec n n le_rfl

theorem digitsRec_lt_ten (fuel n : Nat) : ∀ d ∈ digitsRec fuel n, d < 10 := by
  induction fuel generalizing n with
  | zero =>
    cases n <;> simp [digitsRec]
  | succ f ih =>
    cases n with
    | zero => simp [digitsRec]
    | succ m =>
      intro d hd
      simp only [digitsRec, List.mem_cons] at hd
      rcases hd with h | h
      · subst h; exact Nat.mod_lt _ (by norm_num)
      · exact ih _ d h

/-! ## Digit characters -/

/-- The character for decimal digit `d` (ASCII `'0'` + d). -/
def digitChar (d : Nat) : Char := Char.ofNat (48 + d)

/-- Inverse of `digitChar` on digits: character code minus ASCII `'0'`. -/
def charDigit (c : Char) : Nat := c.toNat - 48

theorem charDigit_digitChar (d : Nat) (h : d < 10) :
    charDigit (digitChar d) = d := by
  interval_cases d <;> rfl

theorem digitChar_ne_sep (d : Nat) (h : d < 10) : digitChar d ≠ ',' := by
  interval_cases d <;> decide

/-! ## Comma-separated fields

The UBID string joins numeric fields with `','`.  `splitFields` is the
inverse of `joinFields` on separator-free fields. -/

/-- Join character lists with `','` separators. -/
def joinFields : List (List Char) → List Char
  | [] => []
  | [f] => f
  | f :: g :: gs => f ++ ',' :: joinFields (g :: gs)

/-- Split a character list on `','` (keeps empty fields, like
`str.split(",")`). -/
def splitFields : List Char → List (List Char)
  | [] => [[]]
  | c :: rest =>
    if c = ',' then [] :: splitFields rest
    else
      match splitFields rest with
      | [] => [[c]]
      | f :: fs => (c :: f) :: fs

/-- A field is clean when it contains no separator character. -/
def CleanField (f : List Char) : Prop := ∀ c ∈ f, c ≠ ','

theorem splitFields_clean (f : List Char) (h : CleanField f) :
    splitFields f = [f] := by
  induction f with
  | nil => rfl
  | cons c rest ih =>
    have hc : c ≠ ',' := h c (List.mem_cons_self c rest)
    have hrest : CleanField rest := fun d hd => h d (List.mem_cons_of_mem c hd)
    simp only [splitFields, if_neg hc, ih hrest]

theorem splitFields_append (f t : List Char) (h : CleanField f) :
    splitFields (f ++ ',' :: t) = f :: splitFields t := by
  induction f with
  | nil => simp [splitFields]
  | cons c rest ih =>
    have hc : c ≠ ',' := h c (List.mem_cons_self c rest)
    have hrest : CleanField rest := fun d hd => h d (List.mem_cons_of_mem c hd)
    simp only [List.cons_append, splitFields, if_neg hc, List.append_eq,
      ih hrest]

theorem splitFields_joinFields (fs : List (List Char)) (hne : fs ≠ [])
    (hclean : ∀ f ∈ fs, CleanField f) :
    splitFields (joinFields fs) = fs := by
  induction fs with
  | nil => exact absurd rfl hne
  | cons f rest ih =>
    cases rest with
    | nil =>
      exact splitFields_clean f (hclean f (List.mem_cons_self f []))
    | cons g gs =>
      have hf : CleanField f := hclean f (List.mem_cons_self f _)
      have hrest : ∀ x ∈ g :: gs, CleanField x := fun x hx =>
        hclean x (List.mem_cons_of_mem f hx)
      simp only [joinFields, splitFields_append f _ hf,
        ih (by simp) hrest]

/-! ## Numeric fields -/

/-- Serialize a natural number as a separator-free field of decimal digit
characters (little-endian; `0` is the empty field). -/
def natField (n : Nat) : List Char := (natDigits n).map digitChar

/-- Parse a numeric field back to a natural number. -/
def parseNatField (f : List Char) : Nat := ofDigits10 (f.map charDigit)

theorem natField_clean (n : Nat) : CleanField (natField n) := by
  intro c hc
  simp only [natField, List.mem_map] at hc
  obtain ⟨d, hd, rfl⟩ := hc
  exact digitChar_ne_sep d (digitsRec_lt_ten n n d hd)

theorem parseNatField_natField (n : Nat) : parseNatField (natField n) = n := by
  unfold parseNatField natField natDigits
  rw [List.map_map]
  have : ∀ l, (∀ d ∈ l, d < 10) →
      List.map (charDigit ∘ digitChar) l = l := by
    intro l hl
    induction l with
    | nil => rfl
    | cons d ds ih =>
      simp only [List.map_cons, Function.comp_apply,
        charDigit_digitChar d (hl d (List.mem_cons_self d ds)),
        ih (fun e he => hl e (List.mem_cons_of_mem d he))]
  rw [this _ (digitsRec_lt_ten n n)]
  exact ofDigits10_digitsRec n n le_rfl

/-! ## Geometry: points, polygons, bounding boxes

A polygon footprint is its list of vertices, each a `(longitude,
latitude)` pair of rationals. -/

/-- A `(longitude, latitude)` coordinate pair. -/
abbrev Pt := ℚ × ℚ

/-- An axis-aligned bounding box in `(longitude, latitude)` coordinates. -/
structure BBox where
  minLng : ℚ
  minLat : ℚ
  maxLng : ℚ
  maxLat : ℚ
  deriving DecidableEq, Repr

/-- Extend a bounding box to cover one more point. -/
def bboxStep (b : BBox) (p : Pt) : BBox :=
  ⟨min b.minLng p.1, min b.minLat p.2, max b.maxLng p.1, max b.maxLat p.2⟩

/-- Bounding box of a vertex list (degenerate `⟨0,0,0,0⟩` on the empty
list, which the Python code never sees). -/
def bboxOf : List Pt → BBox
  | [] => ⟨0, 0, 0, 0⟩
  | p :: ps => ps.foldl bboxStep ⟨p.1, p.2, p.1, p.2⟩

/-- Membership of a point in a bounding box. -/
def inBBox (b : BBox) (p : Pt) : Prop :=
  b.minLng ≤ p.1 ∧ p.1 ≤ b.maxLng ∧ b.minLat ≤ p.2 ∧ p.2 ≤ b.maxLat

instance (b : BBox) (p : Pt) : Decidable (inBBox b p) := by
  unfold inBBox; infer_instance

/-- One bounding box contains another. -/
def bboxSubset (inner outer : BBox) : Prop :=
  outer.minLng ≤ inner.minLng ∧ inner.maxLng ≤ outer.maxLng ∧
  outer.minLat ≤ inner.minLat ∧ inner.maxLat ≤ outer.maxLat

theorem inBBox_bboxStep (b : BBox) (p q : Pt) (h : inBBox b p) :
    inBBox (bboxStep b q) p := by
  obtain ⟨h1, h2, h3, h4⟩ := h
  exact ⟨le_trans (min_le_left _ _) h1, le_trans h2 (le_max_left _ _),
    le_trans (min_le_left _ _) h3, le_trans h4 (le_max_left _ _)⟩

theorem inBBox_foldl (l : List Pt) (b : BBox) (p : Pt) (h : inBBox b p) :
    inBBox (l.foldl bboxStep b) p := by
  induction l generalizing b with
  | nil => exact h
  | cons q qs ih => exact ih _ (inBBox_bboxStep b p q h)

theorem inBBox_foldl_mem (l : List Pt) (b : BBox) (p : Pt) (h : p ∈ l) :
    inBBox (l.foldl bboxStep b) p := by
  induction l generalizing b with
  | nil => cases h
  | cons q qs ih =>
    rcases List.mem_cons.mp h with rfl | hmem
    · refine inBBox_foldl qs _ p ?_
      exact ⟨min_le_right _ _, le_max_right _ _, min_le_right _ _,
        le_max_right _ _⟩
    · exact ih _ hmem

theorem mem_bboxOf (l : List Pt) (p : Pt) (h : p ∈ l) :
    inBBox (bboxOf l) p := by
  cases l with
  | nil => cases h
  | cons q qs =>
    rcases List.mem_cons.mp h with rfl | hmem
    · exact inBBox_foldl qs _ p ⟨le_refl _, le_refl _, le_refl _, le_refl _⟩
    · exact inBBox_foldl_mem qs _ p hmem

theorem bboxStep_le (b : BBox) (p : Pt)
    (h : b.minLng ≤ b.maxLng ∧ b.minLat ≤ b.maxLat) :
    (bboxStep b p).minLng ≤ (bboxStep b p).maxLng ∧
      (bboxStep b p).minLat ≤ (bboxStep b p).maxLat := by
  obtain ⟨h1, h2⟩ := h
  constructor
  · exact le_trans (min_le_left _ _) (le_trans h1 (le_max_left _ _))
  · exact le_trans (min_le_left _ _) (le_trans h2 (le_max_left _ _))

theorem bboxOf_le (l : List Pt) (hne : l ≠ []) :
    (bboxOf l).minLng ≤ (bboxOf l).maxLng ∧
      (bboxOf l).minLat ≤ (bboxOf l).maxLat := by
  cases l with
  | nil => exact absurd rfl hne
  | cons q qs =>
    suffices h : ∀ (m : List Pt) (b : BBox),
        b.minLng ≤ b.maxLng ∧ b.minLat ≤ b.maxLat →
        (m.foldl bboxStep b).minLng ≤ (m.foldl bboxStep b).maxLng ∧
          (m.foldl bboxStep b).minLat ≤ (m.foldl bboxStep b).maxLat by
      exact h qs _ ⟨le_refl _, le_refl _⟩
    intro m
    induction m with
    | nil => exact fun b hb => hb
    | cons r rs ih => exact fun b hb => ih _ (bboxStep_le b r hb)

theorem bboxOf_lb (l : List Pt) (hne : l ≠ [])
    (h : ∀ p ∈ l, -180 ≤ p.1 ∧ -90 ≤ p.2) :
    -180 ≤ (bboxOf l).minLng ∧ -90 ≤ (bboxOf l).minLat := by
  cases l with
  | nil => exact absurd rfl hne
  | cons q qs =>
    suffices hgen : ∀ (m : List Pt) (b : BBox),
        (∀ p ∈ m, -180 ≤ p.1 ∧ -90 ≤ p.2) →
        -180 ≤ b.minLng ∧ -90 ≤ b.minLat →
        -180 ≤ (m.foldl bboxStep b).minLng ∧
          -90 ≤ (m.foldl bboxStep b).minLat by
      refine hgen qs _ (fun p hp => h p (List.mem_cons_of_mem q hp)) ?_
      exact ⟨(h q (List.mem_cons_self q qs)).1, (h q (List.mem_cons_self q qs)).2⟩
    intro m
    induction m with
    | nil => exact fun b _ hb => hb
    | cons r rs ih =>
      intro b hm hb
      refine ih _ (fun p hp => hm p (List.mem_cons_of_mem r hp)) ?_
      have hr := hm r (List.mem_cons_self r rs)
      exact ⟨le_min hb.1 hr.1, le_min hb.2 hr.2⟩

/-! ## Fixed-precision geocell grid

The grid underlying the UBID model: 1/8000-degree cells, indexed by
naturals after shifting latitude by 90° and longitude by 180°. -/

/-- Cell index of coordinate `x` on the 1/8000-degree grid shifted by
offset `o`. -/
def cellOf (o x : ℚ) : ℕ := (⌊(x + o) * 8000⌋).toNat

/-- Lower edge of cell `i` on the grid shifted by offset `o`. -/
def coordOfCell (o : ℚ) (i : ℕ) : ℚ := (i : ℚ) / 8000 - o

theorem cellOf_cast (o x : ℚ) (h : -o ≤ x) :
    ((cellOf o x : ℤ) : ℚ) = ((⌊(x + o) * 8000⌋ : ℤ) : ℚ) := by
  have hx : (0 : ℚ) ≤ (x + o) * 8000 := mul_nonneg (by linarith) (by norm_num)
  have : (0 : ℤ) ≤ ⌊(x + o) * 8000⌋ := Int.floor_nonneg.mpr hx
  unfold cellOf
  rw [Int.toNat_of_nonneg this]

theorem coordOfCell_cellOf_le (o x : ℚ) (h : -o ≤ x) :
    coordOfCell o (cellOf o x) ≤ x := by
  have hfl := Int.floor_le ((x + o) * 8000)
  have hcast := cellOf_cast o x h
  unfold coordOfCell
  have : ((cellOf o x : ℕ) : ℚ) = ((⌊(x + o) * 8000⌋ : ℤ) : ℚ) := by
    rw [← hcast]; norm_cast
  rw [this]
  linarith

theorem lt_coordOfCell_succ (o x : ℚ) (h : -o ≤ x) :
    x < coordOfCell o (cellOf o x + 1) := by
  have hfl := Int.lt_floor_add_one ((x + o) * 8000)
  have hcast := cellOf_cast o x h
  unfold coordOfCell
  have : ((cellOf o x + 1 : ℕ) : ℚ) = ((⌊(x + o) * 8000⌋ : ℤ) : ℚ) + 1 := by
    push_cast
    rw [← hcast]; norm_cast
  rw [this]
  linarith

theorem cellOf_mono (o : ℚ) {a b : ℚ} (h : a ≤ b) :
    cellOf o a ≤ cellOf o b := by
  unfold cellOf
  exact Int.toNat_le_toNat
    (Int.floor_le_floor (mul_le_mul_of_nonneg_right (by linarith) (by norm_num)))

theorem coordOfCell_succ (o : ℚ) (i : ℕ) :
    coordOfCell o (i + 1) = coordOfCell o i + 1 / 8000 := by
  unfold coordOfCell
  push_cast
  ring

/-! ## UBID encode/decode -/

/-- Centroid of a polygon footprint in the model: the midpoint of its
bounding box. -/
def polyCentroid (poly : List Pt) : Pt :=
  let b := bboxOf poly
  ((b.minLng + b.maxLng) / 2, (b.minLat + b.maxLat) / 2)

/-- Modelled from the spec: `building_data_utilities/utils/ubid.py` is
not in the source tree.  Per the spec, a UBID is "a fixed-precision
string encoding of a bounding region, analogous to a geohash":
`encode_ubid` records the grid cell of the footprint's centroid together
with the cell extents of its bounding box to the north, east, south and
west, serialized as comma-separated decimal fields. -/
def encode_ubid (poly : List Pt) : String :=
  let b := bboxOf poly
  let c := polyCentroid poly
  let cLat := cellOf 90 c.2
  let cLng := cellOf 180 c.1
  let north := cellOf 90 b.maxLat - cLat
  let south := cLat - cellOf 90 b.minLat
  let east := cellOf 180 b.maxLng - cLng
  let west := cLng - cellOf 180 b.minLng
  String.mk (joinFields ([cLat, cLng, north, east, south, west].map natField))

/-- Parse the six numeric fields of a UBID string. -/
def parseUbid (s : String) : Option (ℕ × ℕ × ℕ × ℕ × ℕ × ℕ) :=
  match (splitFields s.data).map parseNatField with
  | [cLat, cLng, north, east, south, west] =>
    some (cLat, cLng, north, east, south, west)
  | _ => none

/-- Modelled from the spec: decode a UBID string to the grid-aligned
bounding box it denotes (the cells spanned by the encoded extents). -/
def bounding_box (s : String) : Option BBox :=
  (parseUbid s).map fun t =>
    match t with
    | (cLat, cLng, north, east, south, west) =>
      ⟨coordOfCell 180 (cLng - west), coordOfCell 90 (cLat - south),
       coordOfCell 180 (cLng + east + 1), coordOfCell 90 (cLat + north + 1)⟩

/-- Modelled from the spec: decode a UBID string to the centre of its
centroid cell. -/
def centroid (s : String) : Option Pt :=
  (parseUbid s).map fun t =>
    match t with
    | (cLat, cLng, _, _, _, _) =>
      (coordOfCell 180 cLng + 1 / 16000, coordOfCell 90 cLat + 1 / 16000)

theorem parseUbid_encode_ubid (poly : List Pt) :
    parseUbid (encode_ubid poly) =
      some (cellOf 90 (polyCentroid poly).2, cellOf 180 (polyCentroid poly).1,
        cellOf 90 (bboxOf poly).maxLat - cellOf 90 (polyCentroid poly).2,
        cellOf 180 (bboxOf poly).maxLng - cellOf 180 (polyCentroid poly).1,
        cellOf 90 (polyCentroid poly).2 - cellOf 90 (bboxOf poly).minLat,
        cellOf 180 (polyCentroid poly).1 - cellOf 180 (bboxOf poly).minLng) := by
  unfold parseUbid encode_ubid
  have hdata : (String.mk (joinFields
      ([cellOf 90 (polyCentroid poly).2, cellOf 180 (polyCentroid poly).1,
        cellOf 90 (bboxOf poly).maxLat - cellOf 90 (polyCentroid poly).2,
        cellOf 180 (bboxOf poly).maxLng - cellOf 180 (polyCentroid poly).1,
        cellOf 90 (polyCentroid poly).2 - cellOf 90 (bboxOf poly).minLat,
        cellOf 180 (polyCentroid poly).1 - cellOf 180 (bboxOf poly).minLng
        ].map natField))).data =
      joinFields ([cellOf 90 (polyCentroid poly).2,
        cellOf 180 (polyCentroid poly).1,
        cellOf 90 (bboxOf poly).maxLat - cellOf 90 (polyCentroid poly).2,
        cellOf 180 (bboxOf poly).maxLng - cellOf 180 (polyCentroid poly).1,
        cellOf 90 (polyCentroid poly).2 - cellOf 90 (bboxOf poly).minLat,
        cellOf 180 (polyCentroid poly).1 - cellOf 180 (bboxOf poly).minLng
        ].map natField) := rfl
  simp only [hdata]
  rw [splitFields_joinFields _ (by simp) ?hclean]
  case hclean =>
    intro f hf
    simp only [List.mem_map] at hf
    obtain ⟨n, _, rfl⟩ := hf
    exact natField_clean n
  simp only [List.map_map, List.map_cons, List.map_nil,
    Function.comp_apply, parseNatField_natField]

end BDU

namespace BDU

/-- C1: encoding a polygon footprint with `encode_ubid` and decoding the
resulting UBID string with `bounding_box` yields a bounding box that
contains the original polygon, and the centroid decoded from that UBID
is within half a grid cell (1/16000 of a degree, well under the 0.1°
test tolerance) of the polygon's centroid in each coordinate. -/
theorem C1_ubid_round_trip (poly : List Pt) (hne : poly ≠ [])
    (hrange : ∀ p ∈ poly, -180 ≤ p.1 ∧ p.1 ≤ 180 ∧ -90 ≤ p.2 ∧ p.2 ≤ 90) :
    ∃ b : BBox, bounding_box (encode_ubid poly) = some b ∧
      (∀ p ∈ poly, inBBox b p) ∧
      ∃ c : Pt, centroid (encode_ubid poly) = some c ∧
        |c.1 - (polyCentroid poly).1| ≤ 1 / 16000 ∧
        |c.2 - (polyCentroid poly).2| ≤ 1 / 16000 := by
  have hle := bboxOf_le poly hne
  have hlb := bboxOf_lb poly hne
    (fun p hp => ⟨(hrange p hp).1, (hrange p hp).2.2.1⟩)
  set B := bboxOf poly with hB
  have hm1 : (polyCentroid poly).1 = (B.minLng + B.maxLng) / 2 := rfl
  have hm2 : (polyCentroid poly).2 = (B.minLat + B.maxLat) / 2 := rfl
  have hmlng_lb : B.minLng ≤ (polyCentroid poly).1 := by rw [hm1]; linarith [hle.1]
  have hmlng_ub : (polyCentroid poly).1 ≤ B.maxLng := by rw [hm1]; linarith [hle.1]
  have hmlat_lb : B.minLat ≤ (polyCentroid poly).2 := by rw [hm2]; linarith [hle.2]
  have hmlat_ub : (polyCentroid poly).2 ≤ B.maxLat := by rw [hm2]; linarith [hle.2]
  have hclng_lb : -180 ≤ (polyCentroid poly).1 := le_trans hlb.1 hmlng_lb
  have hclat_lb : -90 ≤ (polyCentroid poly).2 := le_trans hlb.2 hmlat_lb
  have hmaxlng_lb : -180 ≤ B.maxLng := le_trans hlb.1 hle.1
  have hmaxlat_lb : -90 ≤ B.maxLat := le_trans hlb.2 hle.2
  have hcell_lat_lo : cellOf 90 B.minLat ≤ cellOf 90 (polyCentroid poly).2 :=
    cellOf_mono 90 hmlat_lb
  have hcell_lat_hi : cellOf 90 (polyCentroid poly).2 ≤ cellOf 90 B.maxLat :=
    cellOf_mono 90 hmlat_ub
  have hcell_lng_lo : cellOf 180 B.minLng ≤ cellOf 180 (polyCentroid poly).1 :=
    cellOf_mono 180 hmlng_lb
  have hcell_lng_hi : cellOf 180 (polyCentroid poly).1 ≤ cellOf 180 B.maxLng :=
    cellOf_mono 180 hmlng_ub
  have hsub_lat : cellOf 90 (polyCentroid poly).2 -
      (cellOf 90 (polyCentroid poly).2 - cellOf 90 B.minLat) =
      cellOf 90 B.minLat := Nat.sub_sub_self hcell_lat_lo
  have hsub_lng : cellOf 180 (polyCentroid poly).1 -
      (cellOf 180 (polyCentroid poly).1 - cellOf 180 B.minLng) =
      cellOf 180 B.minLng := Nat.sub_sub_self hcell_lng_lo
  have hadd_lat : cellOf 90 (polyCentroid poly).2 +
      (cellOf 90 B.maxLat - cellOf 90 (polyCentroid poly).2) =
      cellOf 90 B.maxLat := Nat.add_sub_cancel' hcell_lat_hi
  have hadd_lng : cellOf 180 (polyCentroid poly).1 +
      (cellOf 180 B.maxLng - cellOf 180 (polyCentroid poly).1) =
      cellOf 180 B.maxLng := Nat.add_sub_cancel' hcell_lng_hi
  refine ⟨⟨coordOfCell 180 (cellOf 180 B.minLng),
      coordOfCell 90 (cellOf 90 B.minLat),
      coordOfCell 180 (cellOf 180 B.maxLng + 1),
      coordOfCell 90 (cellOf 90 B.maxLat + 1)⟩, ?_, ?_, ?_⟩
  · unfold bounding_box
    rw [parseUbid_encode_ubid]
    simp only [Option.map_some', ← hB, hsub_lat, hsub_lng, hadd_lat, hadd_lng]
  · intro p hp
    have hmem := mem_bboxOf poly p hp
    rw [← hB] at hmem
    obtain ⟨h1, h2, h3, h4⟩ := hmem
    refine ⟨le_trans (coordOfCell_cellOf_le 180 B.minLng hlb.1) h1,
      le_of_lt (lt_of_le_of_lt h2 (lt_coordOfCell_succ 180 B.maxLng hmaxlng_lb)),
      le_trans (coordOfCell_cellOf_le 90 B.minLat hlb.2) h3,
      le_of_lt (lt_of_le_of_lt h4 (lt_coordOfCell_succ 90 B.maxLat hmaxlat_lb))⟩
  · refine ⟨(coordOfCell 180 (cellOf 180 (polyCentroid poly).1) + 1 / 16000,
      coordOfCell 90 (cellOf 90 (polyCentroid poly).2) + 1 / 16000), ?_, ?_, ?_⟩
    · unfold centroid
      rw [parseUbid_encode_ubid]
      simp only [Option.map_some']
    · have hlo := coordOfCell_cellOf_le 180 (polyCentroid poly).1 hclng_lb
      have hhi := lt_coordOfCell_succ 180 (polyCentroid poly).1 hclng_lb
      rw [coordOfCell_succ] at hhi
      rw [abs_le]
      constructor <;> simp only [] <;> linarith
    · have hlo := coordOfCell_cellOf_le 90 (polyCentroid poly).2 hclat_lb
      have hhi := lt_coordOfCell_succ 90 (polyCentroid poly).2 hclat_lb
      rw [coordOfCell_succ] at hhi
      rw [abs_le]
      constructor <;> simp only [] <;> linarith

/-- The unit-test square footprint from `tests/test_ubid.py`. -/
def testSquare : List Pt :=
  [(-105, 39), (-104, 39), (-104, 40), (-105, 40), (-105, 39)]

/-- Witness for C1 at the test-suite square polygon. -/
theorem C1_witness :
    testSquare ≠ [] ∧
      (∀ p ∈ testSquare, -180 ≤ p.1 ∧ p.1 ≤ 180 ∧ -90 ≤ p.2 ∧ p.2 ≤ 90) ∧
      (∃ b : BBox, bounding_box (encode_ubid testSquare) = some b ∧
        (∀ p ∈ testSquare, inBBox b p) ∧
        ∃ c : Pt, centroid (encode_ubid testSquare) = some c ∧
          |c.1 - (polyCentroid testSquare).1| ≤ 1 / 16000 ∧
          |c.2 - (polyCentroid testSquare).2| ≤ 1 / 16000) :=
  ⟨by decide, by decide,
    C1_ubid_round_trip testSquare (by decide) (by decide)⟩

end BDU

namespace BDU

/-! ## Address normalization

`building_data_utilities/utils/normalize_address.py` is not in the
source tree; its token-level helpers are modelled from the spec's
"address token normalization" description and from `str.lower()` /
period-stripping Python idiom visible through the unit tests. -/

/-- ASCII lowercasing of a single character. -/
def asciiLowerChar (c : Char) : Char :=
  if 65 ≤ c.toNat ∧ c.toNat ≤ 90 then Char.ofNat (c.toNat + 32) else c

theorem toNat_ofNat_lower (n : Nat) (h1 : 65 ≤ n) (h2 : n ≤ 90) :
    (Char.ofNat (n + 32)).toNat = n + 32 := by
  have hv : (n + 32).isValidChar := Or.inl (by omega)
  rw [Char.ofNat, dif_pos hv]
  simp [Char.toNat, Char.ofNatAux, UInt32.toNat, BitVec.toNat_ofNatLt]

theorem asciiLowerChar_idem (c : Char) :
    asciiLowerChar (asciiLowerChar c) = asciiLowerChar c := by
  unfold asciiLowerChar
  by_cases h : 65 ≤ c.toNat ∧ c.toNat ≤ 90
  · rw [if_pos h]
    have ht := toNat_ofNat_lower c.toNat h.1 h.2
    rw [if_neg]
    intro hcon
    rw [ht] at hcon
    omega
  · rw [if_neg h, if_neg h]

/-- Lowercase then strip periods, at the character-list level. -/
def cleanChars (l : List Char) : List Char :=
  (l.map asciiLowerChar).filter (fun c => c != '.')

theorem cleanChars_idem (l : List Char) :
    cleanChars (cleanChars l) = cleanChars l := by
  induction l with
  | nil => rfl
  | cons c rest ih =>
    simp only [cleanChars, List.map_cons, List.filter_cons] at *
    by_cases h : (asciiLowerChar c != '.') = true
    · simp only [h, if_true]
      simp only [cleanChars, List.map_cons, List.filter_cons,
        asciiLowerChar_idem c, h, if_true] at *
      rw [ih]
    · simp only [h, if_false] at *
      exact ih

/-- ASCII-lowercase a string (model of `str.lower()` on addresses). -/
def lowerStr (s : String) : String := String.mk (s.data.map asciiLowerChar)

/-- Remove all `'.'` characters (model of `str.replace(".", "")`). -/
def stripPeriods (s : String) : String :=
  String.mk (s.data.filter (fun c => c != '.'))

theorem stripPeriods_lowerStr_idem (s : String) :
    stripPeriods (lowerStr (stripPeriods (lowerStr s))) =
      stripPeriods (lowerStr s) := by
  show String.mk (cleanChars (cleanChars s.data)) = String.mk (cleanChars s.data)
  rw [cleanChars_idem]

/-- The direction-abbreviation table: spelled-out cardinal and
intercardinal directions map to their abbreviations. -/
def directionAbbrev (t : String) : Option String :=
  if t = "north" then some "n"
  else if t = "south" then some "s"
  else if t = "east" then some "e"
  else if t = "west" then some "w"
  else if t = "northeast" then some "ne"
  else if t = "northwest" then some "nw"
  else if t = "southeast" then some "se"
  else if t = "southwest" then some "sw"
  else none

/-- Modelled from the spec: `_normalize_address_direction` from the
missing `normalize_address.py` — lowercase the token, strip periods,
then abbreviate spelled-out directions via the table, leaving all other
tokens as the cleaned token. -/
def _normalize_address_direction (s : String) : String :=
  match directionAbbrev (stripPeriods (lowerStr s)) with
  | some a => a
  | none => stripPeriods (lowerStr s)

theorem dirAbbrev_some (t a : String) (h : directionAbbrev t = some a) :
    stripPeriods (lowerStr a) = a ∧ directionAbbrev a = none := by
  unfold directionAbbrev at h
  split_ifs at h <;>
    first
      | exact Option.noConfusion h
      | (injection h with h2; subst h2; exact ⟨by decide, by decide⟩)

/-- C7: `_normalize_address_direction` maps every spelled-out cardinal
or intercardinal direction token, in any letter case, to its lowercase
abbreviation; returns already-abbreviated tokens unchanged; and is
idempotent (applying it twice equals applying it once). -/
theorem C7_normalize_direction :
    (∀ s : String, lowerStr s = "north" →
      _normalize_address_direction s = "n") ∧
    (∀ s : String, lowerStr s = "south" →
      _normalize_address_direction s = "s") ∧
    (∀ s : String, lowerStr s = "east" →
      _normalize_address_direction s = "e") ∧
    (∀ s : String, lowerStr s = "west" →
      _normalize_address_direction s = "w") ∧
    (∀ s : String, lowerStr s = "northeast" →
      _normalize_address_direction s = "ne") ∧
    (∀ s : String, lowerStr s = "northwest" →
      _normalize_address_direction s = "nw") ∧
    (∀ s : String, lowerStr s = "southeast" →
      _normalize_address_direction s = "se") ∧
    (∀ s : String, lowerStr s = "southwest" →
      _normalize_address_direction s = "sw") ∧
    (_normalize_address_direction "n" = "n") ∧
    (_normalize_address_direction "s" = "s") ∧
    (_normalize_address_direction "e" = "e") ∧
    (_normalize_address_direction "w" = "w") ∧
    (_normalize_address_direction "ne" = "ne") ∧
    (_normalize_address_direction "nw" = "nw") ∧
    (_normalize_address_direction "se" = "se") ∧
    (_normalize_address_direction "sw" = "sw") ∧
    (∀ s : String,
      _normalize_address_direction (_normalize_address_direction s) =
        _normalize_address_direction s) := by
  refine ⟨?_, ?_, ?_, ?_, ?_, ?_, ?_, ?_, by decide, by decide, by decide,
    by decide, by decide, by decide, by decide, by decide, ?_⟩
  all_goals try
    (intro s h
     unfold _normalize_address_direction
     rw [h]
     decide)
  intro s
  unfold _normalize_address_direction
  cases h : directionAbbrev (stripPeriods (lowerStr s)) with
  | some a =>
    obtain ⟨ha1, ha2⟩ := dirAbbrev_some _ a h
    rw [ha1, ha2]
  | none =>
    rw [stripPeriods_lowerStr_idem, h]

/-- Witness for C7 at a mixed-case token. -/
theorem C7_witness :
    lowerStr "NoRtH" = "north" ∧ _normalize_address_direction "NoRtH" = "n" :=
  ⟨by decide, C7_normalize_direction.1 "NoRtH" (by decide)⟩

/-! ## Integer rendering (used in error messages and numeric inputs) -/

theorem natDigits_ne_nil (n : Nat) (h : n ≠ 0) : natDigits n ≠ [] := by
  cases n with
  | zero => exact absurd rfl h
  | succ m => simp [natDigits, digitsRec]

/-- Decimal string of a natural number (big-endian). -/
def natToString (n : Nat) : String :=
  if n = 0 then "0" else String.mk (((natDigits n).map digitChar).reverse)

/-- Decimal string of an integer. -/
def intToString (i : Int) : String :=
  if i < 0 then "-" ++ natToString i.natAbs else natToString i.toNat

theorem natToString_ne_empty (n : Nat) : natToString n ≠ "" := by
  unfold natToString
  split_ifs with h
  · decide
  · intro hcon
    have : ((natDigits n).map digitChar).reverse = [] := by
      have := congrArg String.data hcon
      exact this
    rw [List.reverse_eq_nil_iff, List.map_eq_nil_iff] at this
    exact natDigits_ne_nil n h this

theorem intToString_ne_empty (i : Int) : intToString i ≠ "" := by
  unfold intToString
  split_ifs with h
  · intro hcon
    have := congrArg String.data hcon
    simp [String.data_append] at this
  · exact natToString_ne_empty i.toNat

/-! ## normalize_address input handling -/

/-- A Python value as passed to `normalize_address` in the tests:
`None`, a string, a byte string, or an integer. -/
inductive PyVal
  | pnone
  | pstr (s : String)
  | pbytes (b : List Nat)
  | pint (i : Int)
  deriving DecidableEq

/-- The text form of a `PyVal`: strings pass through, bytes are decoded,
numbers are rendered. -/
def pyStr : PyVal → String
  | .pnone => ""
  | .pstr s => s
  | .pbytes b => String.mk (b.map Char.ofNat)
  | .pint i => intToString i

/-- Modelled from the spec: `normalize_address` from the missing
`normalize_address.py` — empty or `None` input yields `None`; any other
input is converted to text and normalized (the model normalizes by
ASCII-lowercasing; token-level rewriting is immaterial to the claims
about `None`-ness). -/
def normalize_address (v : PyVal) : Option String :=
  match v with
  | .pnone => none
  | v => if pyStr v = "" then none else some (lowerStr (pyStr v))

/-- C10: `normalize_address` returns `None` exactly on `None` and on
inputs whose text form is the empty string (the empty string itself and
the empty byte string), and returns a non-`None` normalized string for
every non-empty input, including byte strings and numeric inputs. -/
theorem C10_normalize_address_noneness :
    (∀ v : PyVal, normalize_address v = none ↔
      v = PyVal.pnone ∨ v = PyVal.pstr "" ∨ v = PyVal.pbytes []) ∧
    (∀ i : Int, ∃ s, normalize_address (PyVal.pint i) = some s) ∧
    (∀ b : List Nat, b ≠ [] →
      ∃ s, normalize_address (PyVal.pbytes b) = some s) ∧
    (∀ t : String, t ≠ "" → ∃ s, normalize_address (PyVal.pstr t) = some s) := by
  have hbytes : ∀ b : List Nat, pyStr (PyVal.pbytes b) = "" ↔ b = [] := by
    intro b
    show String.mk (b.map Char.ofNat) = "" ↔ b = []
    constructor
    · intro h
      have := congrArg String.data h
      simpa using this
    · intro h; subst h; rfl
  refine ⟨?_, ?_, ?_, ?_⟩
  · intro v
    cases v with
    | pnone => simp [normalize_address]
    | pstr s =>
      by_cases h : s = ""
      · subst h; simp [normalize_address, pyStr]
      · simp [normalize_address, pyStr, h]
    | pbytes b =>
      by_cases h : b = []
      · subst h; simp [normalize_address, hbytes]
      · have hne : pyStr (PyVal.pbytes b) ≠ "" := fun hc => h ((hbytes b).mp hc)
        simp [normalize_address, hne, h]
    | pint i =>
      have hne : pyStr (PyVal.pint i) ≠ "" := intToString_ne_empty i
      simp [normalize_address, hne]
  · intro i
    have hne : pyStr (PyVal.pint i) ≠ "" := intToString_ne_empty i
    exact ⟨lowerStr (pyStr (PyVal.pint i)), by simp [normalize_address, hne]⟩
  · intro b hb
    have hne : pyStr (PyVal.pbytes b) ≠ "" := fun hc => hb ((hbytes b).mp hc)
    exact ⟨lowerStr (pyStr (PyVal.pbytes b)), by simp [normalize_address, hne]⟩
  · intro t ht
    exact ⟨lowerStr t, by simp [normalize_address, pyStr, ht]⟩

/-- Witness for C10 at the test suite's edge-case inputs: bytes
`b"123 Main St"`-style content and the number `123`. -/
theorem C10_witness :
    ([49, 50, 51] ≠ ([] : List Nat)) ∧
      (∃ s, normalize_address (PyVal.pbytes [49, 50, 51]) = some s) ∧
      (∃ s, normalize_address (PyVal.pint 123) = some s) ∧
      (normalize_address (PyVal.pstr "") = none ↔
        PyVal.pstr "" = PyVal.pnone ∨ PyVal.pstr "" = PyVal.pstr "" ∨
          PyVal.pstr "" = PyVal.pbytes []) :=
  ⟨by decide, C10_normalize_address_noneness.2.2.1 [49, 50, 51] (by decide),
    C10_normalize_address_noneness.2.1 123,
    C10_normalize_address_noneness.1 (PyVal.pstr "")⟩

end BDU

namespace BDU

/-! ## GeoJSON helpers

`geojson_helpers.py` is not in the source tree; `extract_coordinates`
is modelled from the spec's "coordinate extraction from GeoJSON" and the
shapes exercised by the unit tests. -/

/-- An untyped JSON-ish value, as found under a GeoJSON geometry's
`coordinates` key (the Python code never inspects ring contents). -/
inductive JVal
  | jnum (q : ℚ)
  | jarr (l : List JVal)
  deriving BEq

/-- A GeoJSON feature: its geometry's `type` string and the items of its
geometry's `coordinates` array (for a `Polygon`, its rings). -/
structure Feature where
  gtype : String
  coordinates : List JVal

/-- A GeoJSON `FeatureCollection`. -/
structure FeatureCollection where
  features : List Feature

/-- The accumulating loop over features: polygons contribute each of
their rings in order, every other geometry type is skipped. -/
def extractLoop : List Feature → List JVal → List JVal
  | [], acc => acc
  | f :: fs, acc =>
    if f.gtype = "Polygon" then extractLoop fs (acc ++ f.coordinates)
    else extractLoop fs acc

/-- Modelled from the spec: `extract_coordinates` from the missing
`geojson_helpers.py` — collect the coordinate rings of every feature
whose geometry type is `"Polygon"`. -/
def extract_coordinates (fc : FeatureCollection) : List JVal :=
  extractLoop fc.features []

theorem extractLoop_eq (fs : List Feature) (acc : List JVal) :
    extractLoop fs acc =
      acc ++ ((fs.filter (fun f => f.gtype == "Polygon")).map
        Feature.coordinates).flatten := by
  induction fs generalizing acc with
  | nil => simp [extractLoop]
  | cons f rest ih =>
    by_cases h : f.gtype = "Polygon"
    · simp only [extractLoop, if_pos h, ih, List.filter_cons,
        beq_iff_eq, h, if_pos, List.map_cons, List.flatten, List.append_assoc]
    · simp only [extractLoop, if_neg h, ih, List.filter_cons, beq_iff_eq, h]
      simp

/-- C6: `extract_coordinates` returns exactly the coordinate rings
(outer and hole rings, in feature order) of the `"Polygon"` features,
ignores every other geometry type, and returns `[]` when the collection
has no polygon features — in particular on an empty feature list. -/
theorem C6_extract_coordinates :
    (∀ fc : FeatureCollection,
      extract_coordinates fc =
        ((fc.features.filter (fun f => f.gtype == "Polygon")).map
          Feature.coordinates).flatten) ∧
    (∀ fc : FeatureCollection,
      (∀ f ∈ fc.features, f.gtype ≠ "Polygon") →
        extract_coordinates fc = []) ∧
    (extract_coordinates ⟨[]⟩ = []) := by
  refine ⟨?_, ?_, rfl⟩
  · intro fc
    unfold extract_coordinates
    rw [extractLoop_eq]
    simp
  · intro fc h
    unfold extract_coordinates
    rw [extractLoop_eq]
    have : fc.features.filter (fun f => f.gtype == "Polygon") = [] := by
      rw [List.filter_eq_nil_iff]
      intro f hf
      simpa using h f hf
    rw [this]
    simp

/-- The mixed-geometry feature collection of
`tests/test_geojson_helpers.py`: a Point, a Polygon and a LineString. -/
def mixedFC : FeatureCollection :=
  ⟨[⟨"Point", [JVal.jnum (-1045/10), JVal.jnum (395/10)]⟩,
    ⟨"Polygon", [JVal.jarr [JVal.jarr [JVal.jnum (-105), JVal.jnum 39],
      JVal.jarr [JVal.jnum (-104), JVal.jnum 39],
      JVal.jarr [JVal.jnum (-104), JVal.jnum 40],
      JVal.jarr [JVal.jnum (-105), JVal.jnum 40],
      JVal.jarr [JVal.jnum (-105), JVal.jnum 39]]]⟩,
    ⟨"LineString", [JVal.jarr [JVal.jnum (-104), JVal.jnum 39],
      JVal.jarr [JVal.jnum (-103), JVal.jnum 40]]⟩]⟩

/-- A collection with no polygon features. -/
def noPolyFC : FeatureCollection :=
  ⟨[⟨"Point", [JVal.jnum (-1045/10), JVal.jnum (395/10)]⟩,
    ⟨"MultiPolygon", [JVal.jarr []]⟩]⟩

/-- Witness for C6: the no-polygon collection maps to `[]`. -/
theorem C6_witness :
    (∀ f ∈ noPolyFC.features, f.gtype ≠ "Polygon") ∧
      extract_coordinates noPolyFC = [] :=
  ⟨by decide, C6_extract_coordinates.2.1 noPolyFC (by decide)⟩

end BDU

namespace BDU

/-! ## Quadkey dataset downloads

`update_quadkeys.py` is not in the source tree; it is modelled from the
spec ("downloaded CSV/GeoJSON-line files cached to local disk keyed by
quadkey", raising on missing required data) with the cache policy pinned
down by the unit tests in `tests/test_update_quadkeys.py`.  HTTP and the
file system are threaded explicitly: `remote` maps a URL to its
`Content-Length`, a `QState` carries the cached file sizes (keyed by
quadkey) and the log of HTTP requests performed. -/

/-- A row of `dataset-links.csv`: a quadkey and its download URL. -/
structure QRow where
  quadKey : Nat
  url : String

/-- An HTTP request performed while processing a quadkey. -/
inductive QEvent
  | head (url : String) (qk : Nat)
  | get (url : String) (qk : Nat)
  deriving DecidableEq

/-- The quadkey being processed when the request was made. -/
def qTag : QEvent → Nat
  | .head _ q => q
  | .get _ q => q

/-- Local cache plus request log. -/
structure QState where
  files : Nat → Option Nat
  events : List QEvent

/-- Point update of the cached-size map. -/
def updateFiles (f : Nat → Option Nat) (k : Nat) (v : Option Nat) :
    Nat → Option Nat :=
  fun x => if x = k then v else f x

/-- The dataset rows for one quadkey. -/
def rowsFor (df : List QRow) (qk : Nat) : List QRow :=
  df.filter (fun r => r.quadKey == qk)

/-- The URL of the last dataset row for a quadkey, when any row exists. -/
def lastUrlFor (df : List QRow) (qk : Nat) : Option String :=
  ((rowsFor df qk).getLast?).map QRow.url

/-- The `ValueError` message for a quadkey absent from the dataset. -/
def quadkeyErrMsg (qk : Nat) : String :=
  "QuadKey not found in dataset: " ++ natToString qk

/-- Modelled from the spec: one iteration of the `update_quadkeys` loop.
A quadkey with no dataset row raises; otherwise the last row's URL is
used, a missing cached file is fetched directly with `GET`, an existing
file is size-checked via `HEAD` and re-fetched only when the sizes
differ. -/
def processQuadkey (remote : String → Nat) (df : List QRow) (st : QState)
    (qk : Nat) : Except String QState :=
  match lastUrlFor df qk with
  | none => .error (quadkeyErrMsg qk)
  | some url =>
    match st.files qk with
    | none =>
      .ok ⟨updateFiles st.files qk (some (remote url)),
        st.events ++ [.get url qk]⟩
    | some sz =>
      if sz = remote url then
        .ok ⟨st.files, st.events ++ [.head url qk]⟩
      else
        .ok ⟨updateFiles st.files qk (some (remote url)),
          st.events ++ [.head url qk, .get url qk]⟩

/-- The loop over all requested quadkeys: stops at the first error,
returning the state reached so far. -/
def updateLoop (remote : String → Nat) (df : List QRow) :
    List Nat → QState → QState × Except String Unit
  | [], st => (st, .ok ())
  | qk :: rest, st =>
    match processQuadkey remote df st qk with
    | .error e => (st, .error e)
    | .ok st' => updateLoop remote df rest st'

/-- Modelled from the spec: `update_quadkeys` over an explicit dataset
table, remote size oracle and initial cache. -/
def update_quadkeys (quadkeys : List Nat) (df : List QRow)
    (remote : String → Nat) (files0 : Nat → Option Nat) :
    QState × Except String Unit :=
  updateLoop remote df quadkeys ⟨files0, []⟩

theorem processQuadkey_none_case (remote : String → Nat) (df : List QRow)
    (st : QState) (qk : Nat) (url : String)
    (hurl : lastUrlFor df qk = some url) (hf : st.files qk = none) :
    processQuadkey remote df st qk =
      .ok ⟨updateFiles st.files qk (some (remote url)),
        st.events ++ [.get url qk]⟩ := by
  simp [processQuadkey, hurl, hf]

theorem processQuadkey_skip_case (remote : String → Nat) (df : List QRow)
    (st : QState) (qk : Nat) (url : String) (sz : Nat)
    (hurl : lastUrlFor df qk = some url) (hf : st.files qk = some sz)
    (hs : sz = remote url) :
    processQuadkey remote df st qk =
      .ok ⟨st.files, st.events ++ [.head url qk]⟩ := by
  simp [processQuadkey, hurl, hf, hs]

theorem processQuadkey_redownload_case (remote : String → Nat)
    (df : List QRow) (st : QState) (qk : Nat) (url : String) (sz : Nat)
    (hurl : lastUrlFor df qk = some url) (hf : st.files qk = some sz)
    (hs : sz ≠ remote url) :
    processQuadkey remote df st qk =
      .ok ⟨updateFiles st.files qk (some (remote url)),
        st.events ++ [.head url qk, .get url qk]⟩ := by
  simp [processQuadkey, hurl, hf, hs]

theorem processQuadkey_error_case (remote : String → Nat) (df : List QRow)
    (st : QState) (qk : Nat) (hurl : lastUrlFor df qk = none) :
    processQuadkey remote df st qk = .error (quadkeyErrMsg qk) := by
  simp [processQuadkey, hurl]

theorem processQuadkey_ok_of_found (remote : String → Nat) (df : List QRow)
    (st : QState) (qk : Nat) (url : String)
    (hurl : lastUrlFor df qk = some url) :
    ∃ st', processQuadkey remote df st qk = .ok st' := by
  cases hf : st.files qk with
  | none => exact ⟨_, processQuadkey_none_case remote df st qk url hurl hf⟩
  | some sz =>
    by_cases hs : sz = remote url
    · exact ⟨_, processQuadkey_skip_case remote df st qk url sz hurl hf hs⟩
    · exact ⟨_, processQuadkey_redownload_case remote df st qk url sz hurl hf hs⟩

theorem processQuadkey_ok_spec (remote : String → Nat) (df : List QRow)
    (st : QState) (qk : Nat) (st' : QState)
    (h : processQuadkey remote df st qk = .ok st') :
    ∃ url evs, lastUrlFor df qk = some url ∧
      st'.events = st.events ++ evs ∧
      (∀ e ∈ evs, qTag e = qk) ∧
      (∀ d, d ≠ qk → st'.files d = st.files d) ∧
      st'.files qk = some (remote url) ∧
      ((st.files qk = none → evs = [.get url qk]) ∧
       (∀ sz, st.files qk = some sz → sz = remote url →
         evs = [.head url qk]) ∧
       (∀ sz, st.files qk = some sz → sz ≠ remote url →
         evs = [.head url qk, .get url qk])) := by
  cases hurl : lastUrlFor df qk with
  | none =>
    rw [processQuadkey_error_case remote df st qk hurl] at h
    exact Except.noConfusion h
  | some url =>
    cases hf : st.files qk with
    | none =>
      rw [processQuadkey_none_case remote df st qk url hurl hf] at h
      injection h with h
      subst h
      refine ⟨url, [.get url qk], rfl, rfl, ?_, ?_, ?_, ?_, ?_, ?_⟩
      · intro e he; simp at he; subst he; rfl
      · intro d hd; simp [updateFiles, hd]
      · simp [updateFiles]
      · intro _; rfl
      · intro sz hsz
        exact Option.noConfusion hsz
      · intro sz hsz
        exact Option.noConfusion hsz
    | some sz =>
      by_cases hs : sz = remote url
      · rw [processQuadkey_skip_case remote df st qk url sz hurl hf hs] at h
        injection h with h
        subst h
        refine ⟨url, [.head url qk], rfl, rfl, ?_, ?_, ?_, ?_, ?_, ?_⟩
        · intro e he; simp at he; subst he; rfl
        · intro d _; rfl
        · show st.files qk = some (remote url)
          rw [hf, hs]
        · intro hnone
          exact Option.noConfusion hnone
        · intro sz2 hsz2 _; rfl
        · intro sz2 hsz2 hne
          have hss : sz = sz2 := Option.some.inj hsz2
          exact absurd (hss ▸ hs) hne
      · rw [processQuadkey_redownload_case remote df st qk url sz hurl hf hs] at h
        injection h with h
        subst h
        refine ⟨url, [.head url qk, .get url qk], rfl, rfl, ?_, ?_, ?_, ?_, ?_, ?_⟩
        · intro e he
          rcases List.mem_cons.mp he with rfl | he2
          · rfl
          · simp at he2; subst he2; rfl
        · intro d hd; simp [updateFiles, hd]
        · simp [updateFiles]
        · intro hnone
          exact Option.noConfusion hnone
        · intro sz2 hsz2 heq
          have hss : sz = sz2 := Option.some.inj hsz2
          exact absurd (hss ▸ heq) hs
        · intro sz2 hsz2 _; rfl

theorem updateLoop_error (remote : String → Nat) (df : List QRow)
    (l : List Nat) (st : QState) (qk : Nat)
    (hmem : qk ∈ l) (hmiss : lastUrlFor df qk = none) :
    ∃ m, m ∈ l ∧ lastUrlFor df m = none ∧
      (updateLoop remote df l st).2 = .error (quadkeyErrMsg m) := by
  induction l generalizing st with
  | nil => cases hmem
  | cons a rest ih =>
    by_cases ha : lastUrlFor df a = none
    · refine ⟨a, List.mem_cons_self a rest, ha, ?_⟩
      simp [updateLoop, processQuadkey_error_case remote df st a ha]
    · cases hurl : lastUrlFor df a with
      | none => exact absurd hurl ha
      | some url =>
        have hqk : qk ∈ rest := by
          rcases List.mem_cons.mp hmem with rfl | h2
          · exact absurd hmiss ha
          · exact h2
        obtain ⟨st2, hst2⟩ :=
          processQuadkey_ok_of_found remote df st a url hurl
        obtain ⟨m, hm1, hm2, hm3⟩ := ih st2 hqk
        refine ⟨m, List.mem_cons_of_mem a hm1, hm2, ?_⟩
        simp [updateLoop, hst2, hm3]

theorem updateLoop_get_found (remote : String → Nat) (df : List QRow)
    (l : List Nat) (st : QState)
    (hinv : ∀ u d, QEvent.get u d ∈ st.events → lastUrlFor df d ≠ none) :
    ∀ u d, QEvent.get u d ∈ (updateLoop remote df l st).1.events →
      lastUrlFor df d ≠ none := by
  induction l generalizing st with
  | nil => exact hinv
  | cons a rest ih =>
    cases hp : processQuadkey remote df st a with
    | error e =>
      simp only [updateLoop, hp]
      exact hinv
    | ok st2 =>
      simp only [updateLoop, hp]
      refine ih st2 ?_
      intro u d hd
      obtain ⟨url, evs, hurl, hev, htag, _, _, _⟩ :=
        processQuadkey_ok_spec remote df st a st2 hp
      rw [hev, List.mem_append] at hd
      rcases hd with h1 | h2
      · exact hinv u d h1
      · have : d = a := htag _ h2
        subst this
        rw [hurl]
        simp

/-- C4: if a requested quadkey has no row in the dataset table,
`update_quadkeys` fails with a `ValueError` whose message is
`"QuadKey not found in dataset: <quadkey>"` naming a missing requested
quadkey (the first one in request order), and no download (`GET`) is
ever performed for the missing quadkey. -/
theorem C4_missing_quadkey (quadkeys : List Nat) (df : List QRow)
    (remote : String → Nat) (files0 : Nat → Option Nat) (qk : Nat)
    (hmem : qk ∈ quadkeys) (hmiss : lastUrlFor df qk = none) :
    (∃ m, m ∈ quadkeys ∧ lastUrlFor df m = none ∧
      (update_quadkeys quadkeys df remote files0).2 =
        .error ("QuadKey not found in dataset: " ++ natToString m)) ∧
    (∀ u, QEvent.get u qk ∉
      (update_quadkeys quadkeys df remote files0).1.events) := by
  constructor
  · exact updateLoop_error remote df quadkeys ⟨files0, []⟩ qk hmem hmiss
  · intro u hu
    have := updateLoop_get_found remote df quadkeys ⟨files0, []⟩
      (by intro u d hd; cases hd) u qk hu
    exact this hmiss

/-- Witness for C4: requesting quadkey 123 against a table holding only
456 and 789 (the unit-test scenario). -/
theorem C4_witness :
    (123 ∈ [123]) ∧
      lastUrlFor [⟨456, "u456"⟩, ⟨789, "u789"⟩] 123 = none ∧
      ((∃ m, m ∈ [123] ∧ lastUrlFor [⟨456, "u456"⟩, ⟨789, "u789"⟩] m = none ∧
        (update_quadkeys [123] [⟨456, "u456"⟩, ⟨789, "u789"⟩]
          (fun _ => 1000) (fun _ => none)).2 =
          .error ("QuadKey not found in dataset: " ++ natToString m)) ∧
      (∀ u, QEvent.get u 123 ∉
        (update_quadkeys [123] [⟨456, "u456"⟩, ⟨789, "u789"⟩]
          (fun _ => 1000) (fun _ => none)).1.events)) :=
  ⟨by decide, by decide,
    C4_missing_quadkey [123] [⟨456, "u456"⟩, ⟨789, "u789"⟩]
      (fun _ => 1000) (fun _ => none) 123 (by decide) (by decide)⟩


theorem updateLoop_ok (remote : String → Nat) (df : List QRow)
    (l : List Nat) (st : QState)
    (hall : ∀ q ∈ l, lastUrlFor df q ≠ none) :
    (updateLoop remote df l st).2 = .ok () := by
  induction l generalizing st with
  | nil => rfl
  | cons a rest ih =>
    cases hurl : lastUrlFor df a with
    | none => exact absurd hurl (hall a (List.mem_cons_self a rest))
    | some url =>
      obtain ⟨st2, hst2⟩ := processQuadkey_ok_of_found remote df st a url hurl
      simp only [updateLoop, hst2]
      exact ih st2 (fun q hq => hall q (List.mem_cons_of_mem a hq))

theorem updateLoop_frame (remote : String → Nat) (df : List QRow)
    (l : List Nat) (st : QState) (d : Nat) (hd : d ∉ l) :
    (updateLoop remote df l st).1.files d = st.files d ∧
    (updateLoop remote df l st).1.events.filter (fun e => qTag e == d) =
      st.events.filter (fun e => qTag e == d) := by
  induction l generalizing st with
  | nil => exact ⟨rfl, rfl⟩
  | cons a rest ih =>
    have hda : d ≠ a := fun h => hd (h ▸ List.mem_cons_self a rest)
    have hdrest : d ∉ rest := fun h => hd (List.mem_cons_of_mem a h)
    cases hp : processQuadkey remote df st a with
    | error e =>
      simp [updateLoop, hp]
    | ok st2 =>
      simp only [updateLoop, hp]
      obtain ⟨url, evs, hurl, hev, htag, hfiles, _, _⟩ :=
        processQuadkey_ok_spec remote df st a st2 hp
      obtain ⟨ih1, ih2⟩ := ih st2 hdrest
      refine ⟨?_, ?_⟩
      · rw [ih1, hfiles d hda]
      · rw [ih2, hev, List.filter_append]
        have hnil : evs.filter (fun e => qTag e == d) = [] := by
          rw [List.filter_eq_nil_iff]
          intro e he
          have hae := htag e he
          simp [hae]
          exact fun hcon => hda hcon.symm
        rw [hnil, List.append_nil]

theorem updateLoop_append (remote : String → Nat) (df : List QRow)
    (l1 l2 : List Nat) (st : QState)
    (h1 : ∀ q ∈ l1, lastUrlFor df q ≠ none) :
    updateLoop remote df (l1 ++ l2) st =
      updateLoop remote df l2 (updateLoop remote df l1 st).1 := by
  induction l1 generalizing st with
  | nil => rfl
  | cons a rest ih =>
    cases hurl : lastUrlFor df a with
    | none => exact absurd hurl (h1 a (List.mem_cons_self a rest))
    | some url =>
      obtain ⟨st2, hst2⟩ := processQuadkey_ok_of_found remote df st a url hurl
      simp only [List.cons_append, updateLoop, hst2]
      exact ih st2 (fun q hq => h1 q (List.mem_cons_of_mem a hq))

theorem update_quadkeys_spec (quadkeys : List Nat) (df : List QRow)
    (remote : String → Nat) (files0 : Nat → Option Nat) (qk : Nat)
    (url : String)
    (hnodup : quadkeys.Nodup)
    (hall : ∀ q ∈ quadkeys, lastUrlFor df q ≠ none)
    (hmem : qk ∈ quadkeys)
    (hurl : lastUrlFor df qk = some url) :
    ∃ evs,
      (update_quadkeys quadkeys df remote files0).2 = .ok () ∧
      (update_quadkeys quadkeys df remote files0).1.files qk =
        some (remote url) ∧
      (update_quadkeys quadkeys df remote files0).1.events.filter
        (fun e => qTag e == qk) = evs ∧
      ((files0 qk = none → evs = [.get url qk]) ∧
       (∀ sz, files0 qk = some sz → sz = remote url →
         evs = [.head url qk]) ∧
       (∀ sz, files0 qk = some sz → sz ≠ remote url →
         evs = [.head url qk, .get url qk])) := by
  obtain ⟨pre, post, rfl⟩ := List.append_of_mem hmem
  have hnd := List.nodup_append.mp hnodup
  have hqpre : qk ∉ pre := fun hin => hnd.2.2 hin (List.mem_cons_self qk post)
  have hqpost : qk ∉ post := (List.nodup_cons.mp hnd.2.1).1
  have hpre_all : ∀ q ∈ pre, lastUrlFor df q ≠ none :=
    fun q hq => hall q (List.mem_append_left _ hq)
  have hpost_all : ∀ q ∈ post, lastUrlFor df q ≠ none :=
    fun q hq => hall q (List.mem_append_right _ (List.mem_cons_of_mem qk hq))
  have hsplit := updateLoop_append remote df pre (qk :: post) ⟨files0, []⟩
    hpre_all
  have hframe1 := updateLoop_frame remote df pre ⟨files0, []⟩ qk hqpre
  unfold update_quadkeys
  rw [hsplit]
  set st1 := (updateLoop remote df pre ⟨files0, []⟩).1 with hst1
  have hf1 : st1.files qk = files0 qk := hframe1.1
  have he1 : st1.events.filter (fun e => qTag e == qk) = [] := hframe1.2
  have main : ∀ (st2 : QState) (evs : List QEvent),
      processQuadkey remote df st1 qk = .ok st2 →
      st2.events = st1.events ++ evs →
      (∀ e ∈ evs, qTag e = qk) →
      st2.files qk = some (remote url) →
      (updateLoop remote df (qk :: post) st1).2 = .ok () ∧
      (updateLoop remote df (qk :: post) st1).1.files qk =
        some (remote url) ∧
      (updateLoop remote df (qk :: post) st1).1.events.filter
        (fun e => qTag e == qk) = evs := by
    intro st2 evs hproc hev htag hfq
    have hloop : updateLoop remote df (qk :: post) st1 =
        updateLoop remote df post st2 := by
      simp [updateLoop, hproc]
    have hframe2 := updateLoop_frame remote df post st2 qk hqpost
    refine ⟨?_, ?_, ?_⟩
    · rw [hloop]
      exact updateLoop_ok remote df post st2 hpost_all
    · rw [hloop, hframe2.1, hfq]
    · rw [hloop, hframe2.2, hev, List.filter_append, he1, List.nil_append]
      rw [List.filter_eq_self]
      intro e he
      simp [htag e he]
  cases hf : files0 qk with
  | none =>
    have hproc := processQuadkey_none_case remote df st1 qk url hurl
      (hf1.trans hf)
    obtain ⟨hok, hfq, hflt⟩ := main _ [.get url qk] hproc rfl
      (by intro e he; simp at he; subst he; rfl)
      (by simp [updateFiles])
    refine ⟨[.get url qk], hok, hfq, hflt, ?_, ?_, ?_⟩
    · intro _; rfl
    · intro sz hsz
      exact Option.noConfusion hsz
    · intro sz hsz
      exact Option.noConfusion hsz
  | some sz =>
    by_cases hs : sz = remote url
    · have hproc := processQuadkey_skip_case remote df st1 qk url sz hurl
        (hf1.trans hf) hs
      obtain ⟨hok, hfq, hflt⟩ := main _ [.head url qk] hproc rfl
        (by intro e he; simp at he; subst he; rfl)
        (by show st1.files qk = some (remote url); rw [hf1, hf, hs])
      refine ⟨[.head url qk], hok, hfq, hflt, ?_, ?_, ?_⟩
      · intro hnone
        exact Option.noConfusion hnone
      · intro sz2 hsz2 _
        rfl
      · intro sz2 hsz2 hne
        have : sz = sz2 := Option.some.inj hsz2
        exact absurd (this ▸ hs) hne
    · have hproc := processQuadkey_redownload_case remote df st1 qk url sz
        hurl (hf1.trans hf) hs
      obtain ⟨hok, hfq, hflt⟩ := main _ [.head url qk, .get url qk] hproc rfl
        (by intro e he
            rcases List.mem_cons.mp he with rfl | he2
            · rfl
            · simp at he2; subst he2; rfl)
        (by simp [updateFiles])
      refine ⟨[.head url qk, .get url qk], hok, hfq, hflt, ?_, ?_, ?_⟩
      · intro hnone
        exact Option.noConfusion hnone
      · intro sz2 hsz2 heq
        have : sz = sz2 := Option.some.inj hsz2
        exact absurd (this ▸ heq) hs
      · intro sz2 hsz2 _
        rfl


/-- C5: for every requested quadkey that has dataset rows,
`update_quadkeys` maintains the on-disk cache keyed by quadkey: after a
successful run the cached entry holds the remote content; a missing
cached file is downloaded via `GET` with no prior `HEAD` check; an
existing file whose size equals the remote `Content-Length` is not
re-downloaded (a `HEAD` check only); differing sizes trigger a
re-download; and every `GET` for the quadkey uses the URL of the LAST
dataset row for that quadkey. -/
theorem C5_quadkey_caching (quadkeys : List Nat) (df : List QRow)
    (remote : String → Nat) (files0 : Nat → Option Nat) (qk : Nat)
    (url : String)
    (hnodup : quadkeys.Nodup)
    (hall : ∀ q ∈ quadkeys, lastUrlFor df q ≠ none)
    (hmem : qk ∈ quadkeys)
    (hurl : lastUrlFor df qk = some url) :
    (update_quadkeys quadkeys df remote files0).2 = .ok () ∧
    (update_quadkeys quadkeys df remote files0).1.files qk =
      some (remote url) ∧
    (files0 qk = none →
      QEvent.get url qk ∈
        (update_quadkeys quadkeys df remote files0).1.events ∧
      ∀ u, QEvent.head u qk ∉
        (update_quadkeys quadkeys df remote files0).1.events) ∧
    (∀ sz, files0 qk = some sz → sz = remote url →
      (∀ u, QEvent.get u qk ∉
        (update_quadkeys quadkeys df remote files0).1.events) ∧
      QEvent.head url qk ∈
        (update_quadkeys quadkeys df remote files0).1.events) ∧
    (∀ sz, files0 qk = some sz → sz ≠ remote url →
      QEvent.head url qk ∈
        (update_quadkeys quadkeys df remote files0).1.events ∧
      QEvent.get url qk ∈
        (update_quadkeys quadkeys df remote files0).1.events) ∧
    (∀ u, QEvent.get u qk ∈
      (update_quadkeys quadkeys df remote files0).1.events → u = url) := by
  obtain ⟨evs, hok, hfq, hflt, hcase⟩ :=
    update_quadkeys_spec quadkeys df remote files0 qk url hnodup hall hmem hurl
  have htagmem : ∀ e, qTag e = qk →
      (e ∈ (update_quadkeys quadkeys df remote files0).1.events ↔ e ∈ evs) := by
    intro e he
    constructor
    · intro hin
      have hmf : e ∈ (update_quadkeys quadkeys df remote files0).1.events.filter
          (fun x => qTag x == qk) :=
        List.mem_filter.mpr ⟨hin, by simp [he]⟩
      rwa [hflt] at hmf
    · intro hin
      have hmf : e ∈ (update_quadkeys quadkeys df remote files0).1.events.filter
          (fun x => qTag x == qk) := by
        rw [hflt]; exact hin
      exact (List.mem_filter.mp hmf).1
  refine ⟨hok, hfq, ?_, ?_, ?_, ?_⟩
  · intro hf
    have hevs := hcase.1 hf
    subst hevs
    constructor
    · exact (htagmem (QEvent.get url qk) rfl).mpr (by simp)
    · intro u hu
      have hbad := (htagmem (QEvent.head u qk) rfl).mp hu
      simp at hbad
  · intro sz hf hs
    have hevs := hcase.2.1 sz hf hs
    subst hevs
    constructor
    · intro u hu
      have hbad := (htagmem (QEvent.get u qk) rfl).mp hu
      simp at hbad
    · exact (htagmem (QEvent.head url qk) rfl).mpr (by simp)
  · intro sz hf hs
    have hevs := hcase.2.2 sz hf hs
    subst hevs
    exact ⟨(htagmem (QEvent.head url qk) rfl).mpr (by simp),
      (htagmem (QEvent.get url qk) rfl).mpr (by simp)⟩
  · intro u hu
    have hin := (htagmem (QEvent.get u qk) rfl).mp hu
    cases hfz : files0 qk with
    | none =>
      rw [hcase.1 hfz] at hin
      simp at hin
      exact hin
    | some sz =>
      by_cases hs : sz = remote url
      · rw [hcase.2.1 sz hfz hs] at hin
        simp at hin
      · rw [hcase.2.2 sz hfz hs] at hin
        simp at hin
        exact hin

/-- The unit-test scenario for C5: quadkey 123 with two dataset rows (an
old and a new URL), an empty cache, and remote size 1000. -/
def c5df : List QRow := [⟨123, "old/123"⟩, ⟨123, "new/123"⟩, ⟨456, "u456"⟩]

/-- Witness for C5 at the duplicate-rows unit-test scenario. -/
theorem C5_witness :
    ([123] : List Nat).Nodup ∧
      (∀ q ∈ [123], lastUrlFor c5df q ≠ none) ∧
      (123 ∈ [123]) ∧
      lastUrlFor c5df 123 = some "new/123" ∧
      ((update_quadkeys [123] c5df (fun _ => 1000) (fun _ => none)).2 =
        .ok () ∧
      (update_quadkeys [123] c5df (fun _ => 1000)
        (fun _ => none)).1.files 123 = some 1000 ∧
      ((fun _ => (none : Option Nat)) 123 = none →
        QEvent.get "new/123" 123 ∈
          (update_quadkeys [123] c5df (fun _ => 1000)
            (fun _ => none)).1.events ∧
        ∀ u, QEvent.head u 123 ∉
          (update_quadkeys [123] c5df (fun _ => 1000)
            (fun _ => none)).1.events) ∧
      (∀ sz, (fun _ => (none : Option Nat)) 123 = some sz →
        sz = (fun _ => 1000) "new/123" →
        (∀ u, QEvent.get u 123 ∉
          (update_quadkeys [123] c5df (fun _ => 1000)
            (fun _ => none)).1.events) ∧
        QEvent.head "new/123" 123 ∈
          (update_quadkeys [123] c5df (fun _ => 1000)
            (fun _ => none)).1.events) ∧
      (∀ sz, (fun _ => (none : Option Nat)) 123 = some sz →
        sz ≠ (fun _ => 1000) "new/123" →
        QEvent.head "new/123" 123 ∈
          (update_quadkeys [123] c5df (fun _ => 1000)
            (fun _ => none)).1.events ∧
        QEvent.get "new/123" 123 ∈
          (update_quadkeys [123] c5df (fun _ => 1000)
            (fun _ => none)).1.events) ∧
      (∀ u, QEvent.get u 123 ∈
        (update_quadkeys [123] c5df (fun _ => 1000)
          (fun _ => none)).1.events → u = "new/123")) :=
  ⟨by decide, by decide, by decide, by decide,
    C5_quadkey_caching [123] c5df (fun _ => 1000) (fun _ => none) 123
      "new/123" (by decide) (by decide) (by decide) (by decide)⟩


/-! ## Geocoding client

`geocode_addresses.py` is not in the source tree; the client is modelled
from the spec ("calling a third-party geocoding API", "raising on bad
HTTP status codes (invalid key, rate limit)").  HTTP is threaded as an
explicit response function. -/

/-- A location record passed to the geocoder. -/
structure Loc where
  street : String
  city : String
  state : String
  deriving DecidableEq

/-- The exception raised on Amazon API-key problems, carrying its
message. -/
structure AmazonAPIKeyError where
  msg : String
  deriving DecidableEq

/-- A geocoded record (the flattened fields `_process_result`
produces). -/
def GeoRecord := List (String × String)

/-- An HTTP response: its status code and the geocoded record its body
parses to. -/
structure HResp where
  status : Nat
  record : GeoRecord

/-- Message raised on HTTP 401 (invalid key). -/
def msg401 : String :=
  "Failed to geocode property. The Amazon API Key is invalid."

/-- Message raised on HTTP 403 (rate limit). -/
def msg403 : String :=
  "Failed to geocode property. The Amazon API Key is at its limit."

/-- The per-location loop: raise on a bad status, otherwise accumulate
the processed record. -/
def geocodeLoop (post : Loc → HResp) :
    List Loc → List GeoRecord → Except AmazonAPIKeyError (List GeoRecord)
  | [], acc => .ok acc
  | l :: rest, acc =>
    if (post l).status = 401 then .error ⟨msg401⟩
    else if (post l).status = 403 then .error ⟨msg403⟩
    else geocodeLoop post rest (acc ++ [(post l).record])

/-- Modelled from the spec: `geocode_addresses` from the missing
`geocode_addresses.py` — one request per location, raising
`AmazonAPIKeyError` on status 401 (invalid key) or 403 (rate limit). -/
def geocode_addresses (locs : List Loc) (post : Loc → HResp) :
    Except AmazonAPIKeyError (List GeoRecord) :=
  geocodeLoop post locs []

/-- C3: for every non-empty list of locations, a 401 response raises
`AmazonAPIKeyError` with a message containing "API Key is invalid", and
a 403 response raises `AmazonAPIKeyError` with a message saying the key
is at its limit; in both cases no geocoded results are returned. -/
theorem C3_geocode_bad_status (locs : List Loc) (post : Loc → HResp)
    (hne : locs ≠ []) :
    ((∀ l ∈ locs, (post l).status = 401) →
      ∃ e, geocode_addresses locs post = .error e ∧
        (∃ a b, e.msg = a ++ "API Key is invalid" ++ b) ∧
        ∀ rs, geocode_addresses locs post ≠ .ok rs) ∧
    ((∀ l ∈ locs, (post l).status = 403) →
      ∃ e, geocode_addresses locs post = .error e ∧
        (∃ a b, e.msg = a ++ "at its limit" ++ b) ∧
        ∀ rs, geocode_addresses locs post ≠ .ok rs) := by
  cases locs with
  | nil => exact absurd rfl hne
  | cons l rest =>
    constructor
    · intro hst
      have h1 : (post l).status = 401 := hst l (List.mem_cons_self l rest)
      have herr : geocode_addresses (l :: rest) post = .error ⟨msg401⟩ := by
        unfold geocode_addresses geocodeLoop
        rw [if_pos h1]
      refine ⟨⟨msg401⟩, herr, ?_, ?_⟩
      · exact ⟨"Failed to geocode property. The Amazon ", ".", rfl⟩
      · intro rs hok
        rw [herr] at hok
        exact Except.noConfusion hok
    · intro hst
      have h1 : (post l).status = 403 := hst l (List.mem_cons_self l rest)
      have herr : geocode_addresses (l :: rest) post = .error ⟨msg403⟩ := by
        unfold geocode_addresses geocodeLoop
        rw [if_neg (by rw [h1]; decide), if_pos h1]
      refine ⟨⟨msg403⟩, herr, ?_, ?_⟩
      · exact ⟨"Failed to geocode property. The Amazon API Key is ",
          ".", by decide⟩
      · intro rs hok
        rw [herr] at hok
        exact Except.noConfusion hok

/-- The unit-test location for C3. -/
def c3locs : List Loc := [⟨"123 Main St", "Denver", "CO"⟩]

/-- A geocoding endpoint that always answers 401. -/
def post401 : Loc → HResp := fun _ => ⟨401, []⟩

/-- Witness for C3: the 401 scenario of the unit tests. -/
theorem C3_witness :
    c3locs ≠ [] ∧ (∀ l ∈ c3locs, (post401 l).status = 401) ∧
      (∃ e, geocode_addresses c3locs post401 = .error e ∧
        (∃ a b, e.msg = a ++ "API Key is invalid" ++ b) ∧
        ∀ rs, geocode_addresses c3locs post401 ≠ .ok rs) :=
  ⟨by decide, by decide,
    (C3_geocode_bad_status c3locs post401 (by decide)).1 (by decide)⟩


/-! ## GeoDataFrames, add_ubid_to_geodataframe, shp_to_geojson

`ubid.py`'s `add_ubid_to_geodataframe` is modelled from the spec; the
frame itself is an explicit structure (CRS code, column names, rows).
`shp_to_geojson` is embedded from
`src/cbl_workflow/utils/shp_to_geojson.py`, with geopandas file I/O
threaded as an explicit file-system map. -/

/-- A cell value in a (Geo)DataFrame column. -/
inductive Cell
  | cstr (s : String)
  | cnum (q : ℚ)
  | cpt (p : Pt)
  | cgeom (g : List Pt)
  deriving DecidableEq

/-- A row: its geometry and its attribute columns. -/
structure GRow where
  geometry : List Pt
  attrs : List (String × Cell)
  deriving DecidableEq

/-- A GeoDataFrame: CRS (EPSG code), column names, rows. -/
structure Gdf where
  crs : Nat
  cols : List String
  rows : List GRow
  deriving DecidableEq

/-- First-match attribute lookup in a row. -/
def lookupAttr : List (String × Cell) → String → Option Cell
  | [], _ => none
  | (k, v) :: rest, key => if key = k then some v else lookupAttr rest key

/-- Drop every entry for a key from a row's attributes. -/
def removeAttr : List (String × Cell) → String → List (String × Cell)
  | [], _ => []
  | (k2, v2) :: rest, k =>
    if k2 = k then removeAttr rest k else (k2, v2) :: removeAttr rest k

/-- pandas-style column assignment: replace any existing entry for the
key, appending the new value. -/
def setAttr (attrs : List (String × Cell)) (k : String) (v : Cell) :
    List (String × Cell) :=
  removeAttr attrs k ++ [(k, v)]

/-- Drop a name from the column list. -/
def removeCol : List String → String → List String
  | [], _ => []
  | c :: rest, k => if c = k then removeCol rest k else c :: removeCol rest k

/-- pandas-style column-name assignment on the column list. -/
def setCols (cols : List String) (k : String) : List String :=
  removeCol cols k ++ [k]

theorem mem_removeCol (cols : List String) (c k : String)
    (hc : c ∈ cols) (hk : c ≠ k) : c ∈ removeCol cols k := by
  induction cols with
  | nil => cases hc
  | cons a rest ih =>
    rcases List.mem_cons.mp hc with rfl | hmem
    · simp only [removeCol, if_neg hk]
      exact List.mem_cons_self c _
    · by_cases ha : a = k
      · simpa [removeCol, ha] using ih hmem
      · simp only [removeCol, if_neg ha]
        exact List.mem_cons_of_mem a (ih hmem)

theorem lookupAttr_setAttr_self (attrs : List (String × Cell)) (k : String)
    (v : Cell) : lookupAttr (setAttr attrs k v) k = some v := by
  induction attrs with
  | nil => simp [setAttr, removeAttr, lookupAttr]
  | cons kv rest ih =>
    obtain ⟨k2, v2⟩ := kv
    by_cases h : k2 = k
    · simpa [setAttr, removeAttr, h] using ih
    · simp only [setAttr, removeAttr, if_neg h, List.cons_append,
        lookupAttr] at ih ⊢
      rw [if_neg (fun hc => h hc.symm)]
      exact ih

theorem lookupAttr_setAttr_ne (attrs : List (String × Cell))
    (k key : String) (v : Cell) (hk : key ≠ k) :
    lookupAttr (setAttr attrs k v) key = lookupAttr attrs key := by
  induction attrs with
  | nil => simp [setAttr, removeAttr, lookupAttr, hk]
  | cons kv rest ih =>
    obtain ⟨k2, v2⟩ := kv
    by_cases h : k2 = k
    · subst h
      simp only [setAttr, removeAttr, if_pos rfl, lookupAttr] at ih ⊢
      rw [if_neg (fun hc => hk hc)]
      exact ih
    · simp only [setAttr, removeAttr, if_neg h, List.cons_append,
        lookupAttr] at ih ⊢
      by_cases hkey : key = k2
      · simp [hkey]
      · rw [if_neg hkey, if_neg hkey]
        exact ih

/-- Modelled from the spec: `add_ubid_to_geodataframe` from the missing
`ubid.py` — assign a `ubid` column holding `encode_ubid` of each row's
geometry, leaving CRS, the other columns and the row set unchanged
(the optional extra centroid/bbox columns, unused by these claims, are
not modelled). -/
def add_ubid_to_geodataframe (g : Gdf) : Gdf :=
  { crs := g.crs,
    cols := setCols g.cols "ubid",
    rows := g.rows.map fun r =>
      { geometry := r.geometry,
        attrs := setAttr r.attrs "ubid" (.cstr (encode_ubid r.geometry)) } }

theorem encode_ubid_ne_empty (poly : List Pt) : encode_ubid poly ≠ "" := by
  intro h
  have hd : joinFields (List.map natField
      [cellOf 90 (polyCentroid poly).2, cellOf 180 (polyCentroid poly).1,
       cellOf 90 (bboxOf poly).maxLat - cellOf 90 (polyCentroid poly).2,
       cellOf 180 (bboxOf poly).maxLng - cellOf 180 (polyCentroid poly).1,
       cellOf 90 (polyCentroid poly).2 - cellOf 90 (bboxOf poly).minLat,
       cellOf 180 (polyCentroid poly).1 - cellOf 180 (bboxOf poly).minLng])
      = [] := by
    simpa using congrArg String.data h
  simp only [List.map_cons, List.map_nil, joinFields] at hd
  simp at hd

theorem add_ubid_ubid_mem_cols (g : Gdf) :
    "ubid" ∈ (add_ubid_to_geodataframe g).cols := by
  simp [add_ubid_to_geodataframe, setCols]

theorem add_ubid_cols_sub (g : Gdf) :
    ∀ c ∈ g.cols, c ∈ (add_ubid_to_geodataframe g).cols := by
  intro c hc
  by_cases h : c = "ubid"
  · subst h; exact add_ubid_ubid_mem_cols g
  · show c ∈ setCols g.cols "ubid"
    exact List.mem_append_left _ (mem_removeCol g.cols c "ubid" hc h)

theorem add_ubid_crs (g : Gdf) :
    (add_ubid_to_geodataframe g).crs = g.crs := rfl

theorem add_ubid_length (g : Gdf) :
    (add_ubid_to_geodataframe g).rows.length = g.rows.length := by
  simp [add_ubid_to_geodataframe]

theorem add_ubid_row_ubid (g : Gdf) :
    ∀ r2 ∈ (add_ubid_to_geodataframe g).rows,
      ∃ s, lookupAttr r2.attrs "ubid" = some (Cell.cstr s) ∧ s ≠ "" := by
  intro r2 hr2
  simp only [add_ubid_to_geodataframe, List.mem_map] at hr2
  obtain ⟨r, _, rfl⟩ := hr2
  exact ⟨encode_ubid r.geometry, lookupAttr_setAttr_self _ _ _,
    encode_ubid_ne_empty r.geometry⟩

theorem add_ubid_row_src (g : Gdf) :
    ∀ r2 ∈ (add_ubid_to_geodataframe g).rows,
      ∃ r ∈ g.rows, r2.geometry = r.geometry ∧
        ∀ k, k ≠ "ubid" → lookupAttr r2.attrs k = lookupAttr r.attrs k := by
  intro r2 hr2
  simp only [add_ubid_to_geodataframe, List.mem_map] at hr2
  obtain ⟨r, hr, rfl⟩ := hr2
  exact ⟨r, hr, rfl, fun k hk => lookupAttr_setAttr_ne _ _ _ _ hk⟩

/-- C9: `add_ubid_to_geodataframe` yields a frame with a `ubid` column
holding a non-empty string on every row, while preserving the row count,
the CRS, every original column (each output row keeps its source row's
geometry and attribute values), and on an empty frame it yields an empty
frame that still has the `ubid` column. -/
theorem C9_add_ubid (g : Gdf) :
    "ubid" ∈ (add_ubid_to_geodataframe g).cols ∧
    (add_ubid_to_geodataframe g).rows.length = g.rows.length ∧
    (add_ubid_to_geodataframe g).crs = g.crs ∧
    (∀ c ∈ g.cols, c ∈ (add_ubid_to_geodataframe g).cols) ∧
    (∀ r2 ∈ (add_ubid_to_geodataframe g).rows,
      ∃ s, lookupAttr r2.attrs "ubid" = some (Cell.cstr s) ∧ s ≠ "") ∧
    (∀ r2 ∈ (add_ubid_to_geodataframe g).rows,
      ∃ r ∈ g.rows, r2.geometry = r.geometry ∧
        ∀ k, k ≠ "ubid" → lookupAttr r2.attrs k = lookupAttr r.attrs k) ∧
    (g.rows = [] → (add_ubid_to_geodataframe g).rows = [] ∧
      "ubid" ∈ (add_ubid_to_geodataframe g).cols) :=
  ⟨add_ubid_ubid_mem_cols g, add_ubid_length g, add_ubid_crs g,
    add_ubid_cols_sub g, add_ubid_row_ubid g, add_ubid_row_src g,
    fun hrows => ⟨by simp [add_ubid_to_geodataframe, hrows],
      add_ubid_ubid_mem_cols g⟩⟩

/-- The two-building test frame of `tests/test_ubid.py`. -/
def testGdf : Gdf :=
  ⟨4326, ["id", "name", "geometry"],
    [⟨[(-105, 39), (-104, 39), (-104, 40), (-105, 40)],
      [("id", Cell.cnum 1), ("name", Cell.cstr "Building A")]⟩,
     ⟨[(-103, 39), (-102, 39), (-102, 40), (-103, 40)],
      [("id", Cell.cnum 2), ("name", Cell.cstr "Building B")]⟩]⟩

/-- Witness for C9 at the test frame: its first output row carries a
non-empty ubid string. -/
theorem C9_witness :
    ((⟨[((-105 : ℚ), (39 : ℚ)), (-104, 39), (-104, 40), (-105, 40)],
      setAttr [("id", Cell.cnum 1), ("name", Cell.cstr "Building A")]
        "ubid" (Cell.cstr (encode_ubid
          [(-105, 39), (-104, 39), (-104, 40), (-105, 40)]))⟩ : GRow) ∈
      (add_ubid_to_geodataframe testGdf).rows) ∧
    (∃ s, lookupAttr
      (setAttr [("id", Cell.cnum 1), ("name", Cell.cstr "Building A")]
        "ubid" (Cell.cstr (encode_ubid
          [(-105, 39), (-104, 39), (-104, 40), (-105, 40)]))) "ubid" =
        some (Cell.cstr s) ∧ s ≠ "") := by
  have hmem : (⟨[((-105 : ℚ), (39 : ℚ)), (-104, 39), (-104, 40), (-105, 40)],
      setAttr [("id", Cell.cnum 1), ("name", Cell.cstr "Building A")]
        "ubid" (Cell.cstr (encode_ubid
          [(-105, 39), (-104, 39), (-104, 40), (-105, 40)]))⟩ : GRow) ∈
      (add_ubid_to_geodataframe testGdf).rows :=
    List.mem_cons_self _ _
  exact ⟨hmem, (C9_add_ubid testGdf).2.2.2.2.1 _ hmem⟩


/-- Reprojection to EPSG:4326 (`gdf.to_crs(CRS.from_epsg(4326))`): the
frame's CRS becomes 4326; the coordinate transform itself is delegated
to pyproj and not modelled. -/
def toCrs4326 (g : Gdf) : Gdf := { g with crs := 4326 }

/-- Scan a reversed character list for the extension dot, as
`os.path.splitext` does: drop through the last `'.'` of the final path
component, none when a `'/'` comes first. -/
def dropExtRev : List Char → Option (List Char)
  | [] => none
  | c :: rest =>
    if c = '.' then some rest
    else if c = '/' then none
    else dropExtRev rest

/-- The base path without its extension (`os.path.splitext(p)[0]`). -/
def splitextBase (p : String) : String :=
  match dropExtRev p.data.reverse with
  | some rest => String.mk rest.reverse
  | none => p

/-- A file written by the conversion: its path and content. -/
structure WriteEvent where
  path : String
  content : Gdf
  deriving DecidableEq

/-- Embedding of `shp_to_geojson` from
`src/cbl_workflow/utils/shp_to_geojson.py`: read the shapefile (the
file system is the explicit map `fs`; a missing file raises an error
naming it, as `gpd.read_file` does), reproject to EPSG:4326, add the
`ubid` column, and write GeoJSON to the same base path with the
`.geojson` extension. -/
def shp_to_geojson (fs : String → Option Gdf) (shapefile : String) :
    Except String WriteEvent :=
  match fs shapefile with
  | none => .error (shapefile ++ ": No such file or directory")
  | some gdf =>
    .ok ⟨splitextBase shapefile ++ ".geojson",
      add_ubid_to_geodataframe (toCrs4326 gdf)⟩

/-- C8: for a readable shapefile path, `shp_to_geojson` writes to the
same base path with the `.geojson` extension a frame in CRS EPSG:4326
with a `ubid` column on every row (and the same row count); for a
nonexistent input it raises an error naming the file and writes
nothing. -/
theorem C8_shp_to_geojson (fs : String → Option Gdf) (p : String) :
    (∀ gdf, fs p = some gdf →
      ∃ w, shp_to_geojson fs p = .ok w ∧
        w.path = splitextBase p ++ ".geojson" ∧
        w.content.crs = 4326 ∧
        "ubid" ∈ w.content.cols ∧
        w.content.rows.length = gdf.rows.length ∧
        (∀ r2 ∈ w.content.rows, ∃ s,
          lookupAttr r2.attrs "ubid" = some (Cell.cstr s) ∧ s ≠ "")) ∧
    (fs p = none →
      ∃ msg, shp_to_geojson fs p = .error msg ∧
        (∃ a b, msg = a ++ p ++ b) ∧
        ∀ w, shp_to_geojson fs p ≠ .ok w) := by
  constructor
  · intro gdf hread
    have hres : shp_to_geojson fs p =
        .ok ⟨splitextBase p ++ ".geojson",
          add_ubid_to_geodataframe (toCrs4326 gdf)⟩ := by
      simp [shp_to_geojson, hread]
    refine ⟨_, hres, rfl, ?_, ?_, ?_, ?_⟩
    · exact (add_ubid_crs (toCrs4326 gdf)).trans rfl
    · exact add_ubid_ubid_mem_cols (toCrs4326 gdf)
    · exact (add_ubid_length (toCrs4326 gdf)).trans rfl
    · exact add_ubid_row_ubid (toCrs4326 gdf)
  · intro hread
    have hres : shp_to_geojson fs p =
        .error (p ++ ": No such file or directory") := by
      simp [shp_to_geojson, hread]
    refine ⟨_, hres, ⟨"", ": No such file or directory", by simp⟩, ?_⟩
    intro w hok
    rw [hres] at hok
    exact Except.noConfusion hok

/-- A one-file file system holding the test frame as
`buildings.shp`. -/
def c8fs : String → Option Gdf :=
  fun q => if q = "buildings.shp" then some testGdf else none

/-- Witness for C8 at the readable test shapefile. -/
theorem C8_witness :
    c8fs "buildings.shp" = some testGdf ∧
      (∃ w, shp_to_geojson c8fs "buildings.shp" = .ok w ∧
        w.path = splitextBase "buildings.shp" ++ ".geojson" ∧
        w.content.crs = 4326 ∧
        "ubid" ∈ w.content.cols ∧
        w.content.rows.length = testGdf.rows.length ∧
        (∀ r2 ∈ w.content.rows, ∃ s,
          lookupAttr r2.attrs "ubid" = some (Cell.cstr s) ∧ s ≠ "")) :=
  ⟨by decide,
    (C8_shp_to_geojson c8fs "buildings.shp").1 testGdf (by decide)⟩


/-! ## The driver pipeline (main.py)

Embedding of the record flow in `src/main.py`: each building-location
record is a finite map from field names to values, enriched in place by
the successive stages.  External computations (the geocoder's output,
mercantile's tile/quadkey math, the spatial join's footprint and height)
are threaded as explicit parameters; the record-manipulation structure
is the code's own. -/

/-- A field value in a building-location record. -/
inductive Val
  | vstr (s : String)
  | vnum (q : ℚ)
  | vgeom (g : List Pt)
  | vnone
  deriving DecidableEq

/-- A building-location record: a map from field names to values. -/
def Rec := String → Option Val

/-- Dict assignment `datum[k] = v`. -/
def setField (r : Rec) (k : String) (v : Val) : Rec :=
  fun x => if x = k then some v else r x

theorem setField_self (r : Rec) (k : String) (v : Val) :
    setField r k v k = some v := if_pos rfl

theorem setField_ne (r : Rec) (k : String) (v : Val) (x : String)
    (h : x ≠ k) : setField r k v x = r x := if_neg h

/-- Stage 1 (`loc["street"] = normalize_address(loc["street"])`):
overwrite the input street field with its normalized form. -/
def stage_normalize (normFn : Option Val → Val) (r : Rec) : Rec :=
  setField r "street" (normFn (r "street"))

/-- Stage 2, modelled from the spec: geocoding enriches the record with
the geocoded latitude/longitude and the quality flag
(`geocode_addresses.py` is absent from the sources; the spec's data
model lists exactly these derived fields). -/
def stage_geocode (lat lng quality : Val) (r : Rec) : Rec :=
  setField (setField (setField r "latitude" lat) "longitude" lng)
    "quality" quality

/-- Stage 3 (`datum["quadkey"] = int(mercantile.quadkey(tile))`). -/
def stage_quadkey (qkVal : Val) (r : Rec) : Rec :=
  setField r "quadkey" qkVal

/-- Stage 4 (footprint matching writes `footprint_match`, `geometry`
and `height`). -/
def stage_footprint (fpm geom height : Val) (r : Rec) : Rec :=
  setField (setField (setField r "footprint_match" fpm) "geometry" geom)
    "height" height

/-- The UBID value computed from the record's geometry field. -/
def ubidValOf : Option Val → Val
  | some (.vgeom g) => .vstr (encode_ubid g)
  | _ => .vnone

/-- Stage 5 (`datum["ubid"] = encode_ubid(datum["geometry"])`). -/
def stage_ubid (r : Rec) : Rec :=
  setField r "ubid" (ubidValOf (r "geometry"))

/-- The whole `main.py` enrichment pass over one record. -/
def pipeline (normFn : Option Val → Val)
    (lat lng quality qkVal fpm geom height : Val) (r : Rec) : Rec :=
  stage_ubid
    (stage_footprint fpm geom height
      (stage_quadkey qkVal
        (stage_geocode lat lng quality
          (stage_normalize normFn r))))

/-- C2: every pipeline stage only adds fields — once a stage has
written a field, no later stage removes or overwrites it: the final
record agrees with the state right after the writing stage on all of
that stage's fields, and every written field is present (`some`) at the
end. -/
theorem C2_pipeline_monotonic (normFn : Option Val → Val)
    (lat lng quality qkVal fpm geom height : Val) (r : Rec) :
    (∀ k, k ∈ ["street"] →
      pipeline normFn lat lng quality qkVal fpm geom height r k =
        stage_normalize normFn r k) ∧
    (∀ k, k ∈ ["latitude", "longitude", "quality"] →
      pipeline normFn lat lng quality qkVal fpm geom height r k =
        stage_geocode lat lng quality (stage_normalize normFn r) k) ∧
    (∀ k, k ∈ ["quadkey"] →
      pipeline normFn lat lng quality qkVal fpm geom height r k =
        stage_quadkey qkVal (stage_geocode lat lng quality
          (stage_normalize normFn r)) k) ∧
    (∀ k, k ∈ ["footprint_match", "geometry", "height"] →
      pipeline normFn lat lng quality qkVal fpm geom height r k =
        stage_footprint fpm geom height (stage_quadkey qkVal
          (stage_geocode lat lng quality (stage_normalize normFn r))) k) ∧
    (∀ k, k ∈ ["street", "latitude", "longitude", "quality", "quadkey",
        "footprint_match", "geometry", "height", "ubid"] →
      ∃ v, pipeline normFn lat lng quality qkVal fpm geom height r k =
        some v) := by
  refine ⟨?_, ?_, ?_, ?_, ?_⟩
  · intro k hk
    simp only [List.mem_singleton] at hk
    subst hk
    simp [pipeline, stage_ubid, stage_footprint, stage_quadkey,
      stage_geocode, stage_normalize, setField]
  · intro k hk
    simp only [List.mem_cons, List.mem_singleton, List.not_mem_nil,
      or_false] at hk
    rcases hk with rfl | rfl | rfl <;>
      simp [pipeline, stage_ubid, stage_footprint, stage_quadkey,
        stage_geocode, setField]
  · intro k hk
    simp only [List.mem_singleton] at hk
    subst hk
    simp [pipeline, stage_ubid, stage_footprint, stage_quadkey, setField]
  · intro k hk
    simp only [List.mem_cons, List.mem_singleton, List.not_mem_nil,
      or_false] at hk
    rcases hk with rfl | rfl | rfl <;>
      simp [pipeline, stage_ubid, stage_footprint, setField]
  · intro k hk
    simp only [List.mem_cons, List.not_mem_nil, or_false] at hk
    rcases hk with rfl | rfl | rfl | rfl | rfl | rfl | rfl | rfl | rfl <;>
      simp [pipeline, stage_ubid, stage_footprint, stage_quadkey,
        stage_geocode, stage_normalize, setField]


/-- Witness for C2: the quadkey field written by stage 3 survives to the
end of the pipeline on a concrete record. -/
theorem C2_witness :
    ("quadkey" ∈ ["quadkey"]) ∧
      pipeline (fun _ => Val.vnone) Val.vnone Val.vnone Val.vnone
        (Val.vnum 1) Val.vnone Val.vnone Val.vnone (fun _ => none)
        "quadkey" =
      stage_quadkey (Val.vnum 1)
        (stage_geocode Val.vnone Val.vnone Val.vnone
          (stage_normalize (fun _ => Val.vnone) (fun _ => none)))
        "quadkey" :=
  ⟨by decide,
    (C2_pipeline_monotonic (fun _ => Val.vnone) Val.vnone Val.vnone
      Val.vnone (Val.vnum 1) Val.vnone Val.vnone Val.vnone
      (fun _ => none)).2.2.1 "quadkey" (by decide)⟩

end BDU
